import Mathlib

/-!
Shallow embedding of the streaming chat client `Ollama_streamlit.py`.

The network layer is abstracted: an HTTP response is modelled by its status
(`Bool`, success or not) together with the sequence of decoded lines the body
would deliver.  Each line is characterised by its `json.loads` outcome
(blank, undecodable, or a parsed JSON value), since the claims quantify over
streams of lines, not over raw bytes.  Python dictionary/attribute semantics
(`in`, `.get`, `[...]`, truthiness, `str.strip`, `str.rstrip`) are embedded
explicitly so that the exception behaviour of the source is preserved.
-/

/-- A JSON value, the result of a successful `json.loads`. -/
inductive Json where
  | null
  | bool (b : Bool)
  | num (n : Int)
  | str (s : String)
  | arr (elems : List Json)
  | obj (fields : List (String × Json))
  deriving Repr, BEq

/-- Python truthiness (`if chunk:`, `if obj.get("done"):`). -/
def Json.truthy : Json → Bool
  | .null => false
  | .bool b => b
  | .num n => n != 0
  | .str s => s != ""
  | .arr xs => !xs.isEmpty
  | .obj fs => !fs.isEmpty

/-- Python exception classes raised by the embedded dictionary operations. -/
inductive PyErr where
  | typeError
  | attributeError
  | keyError
  deriving Repr, BEq, DecidableEq

/-- First binding of a key in a JSON object (a `json.loads` dictionary has
unique keys, so first and last bindings coincide on realisable values). -/
def lookupKey (fields : List (String × Json)) (k : String) : Option Json :=
  (fields.find? (fun p => p.1 == k)).map (fun p => p.2)

/-- Whether `needle` occurs as a contiguous sublist of `hay`. -/
def listIsInfix (needle : List Char) : List Char → Bool
  | [] => needle.isEmpty
  | c :: rest => needle.isPrefixOf (c :: rest) || listIsInfix needle rest

/-- Python substring test `needle in hay` on strings. -/
def pySubstr (needle hay : String) : Bool :=
  listIsInfix needle.toList hay.toList

/-- Python membership test `k in j`: key test on a dict, substring test on a
string, element test on a list, `TypeError` otherwise. -/
def pyContains (j : Json) (k : String) : Except PyErr Bool :=
  match j with
  | .obj fields => .ok (fields.any (fun p => p.1 == k))
  | .str s => .ok (pySubstr k s)
  | .arr xs => .ok (xs.any (fun x => x == Json.str k))
  | _ => .error .typeError

/-- Python `j.get(k, dflt)`: only dictionaries expose `.get`; anything else
raises `AttributeError`. -/
def pyGet (j : Json) (k : String) (dflt : Json) : Except PyErr Json :=
  match j with
  | .obj fields => .ok ((lookupKey fields k).getD dflt)
  | _ => .error .attributeError

/-- Python subscription `j[k]` with a string key: lookup (or `KeyError`) on a
dictionary, `TypeError` on any other JSON value. -/
def pyIndexStr (j : Json) (k : String) : Except PyErr Json :=
  match j with
  | .obj fields =>
    match lookupKey fields k with
    | some v => .ok v
    | none => .error .keyError
  | _ => .error .typeError

/-- Python whitespace characters recognised by `str.strip()`. -/
def pySpace (c : Char) : Bool :=
  c == ' ' || c == '\t' || c == '\n' || c == '\r' || c == '\x0b' || c == '\x0c'

/-- Python `s.strip()`. -/
def pyStrip (s : String) : String :=
  String.mk (((s.toList.dropWhile pySpace).reverse.dropWhile pySpace).reverse)

/-- Python `s.rstrip(c)` for a single strip character. -/
def pyRstrip (s : String) (c : Char) : String :=
  String.mk ((s.toList.reverse.dropWhile (fun d => d == c)).reverse)

/-- `api_url` from the source: strip trailing slashes from the base and append
the path (an f-string concatenation). -/
def api_url (base_url path : String) : String :=
  pyRstrip base_url '/' ++ path

/-- One line delivered by `iter_lines`, characterised by its parse outcome:
empty (falsy, skipped by `if not line`), non-empty but rejected by
`json.loads`, or parsed to a JSON value. -/
inductive Line where
  | blank
  | invalid (s : String)
  | parsed (j : Json)
  deriving Repr, BEq

/-- A failure escaping `stream_chat`: the `raise_for_status` failure on a
non-success initial status, the explicit `RuntimeError(obj["error"])`, or an
exception raised by the duck-typed dictionary operations. -/
inductive StreamError where
  | httpStatus
  | runtime (e : Json)
  | python (e : PyErr)
  deriving Repr, BEq

/-- How an execution of the generator body ends. -/
inductive Outcome where
  | success
  | failure (e : StreamError)
  deriving Repr, BEq

/-- Result of processing one parsed line inside the loop body of
`stream_chat`: either continue (optionally yielding a chunk, optionally
breaking on a truthy `done`) or raise. -/
inductive StepResult where
  | next (chunk : Option Json) (done : Bool)
  | raise (e : StreamError)
  deriving Repr, BEq

/-- Stage of the loop body after the chunk is computed: yield the chunk when
truthy, and stop when `obj.get("done")` is truthy (`obj` is a dictionary
here, so this `get` cannot raise; the error arm is dead but kept for shape). -/
def stepDone (j chunk : Json) : StepResult :=
  match pyGet j "done" Json.null with
  | .error e => .raise (.python e)
  | .ok d => .next (if chunk.truthy then some chunk else none) d.truthy

/-- Stage of the loop body computing `chunk = msg.get("content", "")`. -/
def stepContent (j msg : Json) : StepResult :=
  match pyGet msg "content" (Json.str "") with
  | .error e => .raise (.python e)
  | .ok chunk => stepDone j chunk

/-- Stage of the loop body computing `msg = obj.get("message", {})`. -/
def stepMessage (j : Json) : StepResult :=
  match pyGet j "message" (Json.obj []) with
  | .error e => .raise (.python e)
  | .ok msg => stepContent j msg

/-- Stage of the loop body evaluating `raise RuntimeError(obj["error"])`:
computing `obj["error"]` may itself raise on a non-dictionary. -/
def stepError (j : Json) : StepResult :=
  match pyIndexStr j "error" with
  | .ok v => .raise (.runtime v)
  | .error e => .raise (.python e)

/-- The loop body of `stream_chat` for a single line: skip blank and
undecodable lines; on a parsed value, test `"error" in obj` (raising
`RuntimeError(obj["error"])` on a hit), then `obj.get("message", {})`,
`msg.get("content", "")`, yield the chunk when truthy, and stop when
`obj.get("done")` is truthy. -/
def stepLine : Line → StepResult
  | .blank => .next none false
  | .invalid _ => .next none false
  | .parsed j =>
    match pyContains j "error" with
    | .error e => .raise (.python e)
    | .ok true => stepError j
    | .ok false => stepMessage j

/-- The transcript of a full run of the `stream_chat` loop: the chunks
yielded in order, the lines read in order, the lines never read, and whether
the generator returned or raised. -/
structure StreamRun where
  fragments : List Json
  consumed : List Line
  leftover : List Line
  outcome : Outcome
  deriving Repr, BEq

/-- Execution of the `for line in r.iter_lines(...)` loop of `stream_chat`. -/
def runLines : List Line → StreamRun
  | [] => ⟨[], [], [], .success⟩
  | l :: rest =>
    match stepLine l with
    | .raise e => ⟨[], [l], rest, .failure e⟩
    | .next c true => ⟨c.toList, [l], rest, .success⟩
    | .next c false =>
      let r := runLines rest
      ⟨c.toList ++ r.fragments, l :: r.consumed, r.leftover, r.outcome⟩

/-- `stream_chat` as a function of the abstracted HTTP response: the request
construction and connection management are transport effects outside the
model; `r.raise_for_status()` fails the stream before any line is read when
the status is not successful, then the line loop runs. -/
def stream_chat (statusOk : Bool) (lines : List Line) : StreamRun :=
  if statusOk then runLines lines else ⟨[], [], lines, .failure .httpStatus⟩

/-- The truthy `content` of a message value, if any. -/
def lineContentAux (msg : Json) : Option Json :=
  match pyGet msg "content" (Json.str "") with
  | .error _ => none
  | .ok c => if c.truthy then some c else none

/-- The content a line contributes as a yielded fragment: for a parsed value,
the truthy `message.content` reached without an exception; nothing for blank
or undecodable lines.  This is the per-line extraction the claims describe. -/
def lineContent : Line → Option Json
  | .parsed j =>
    match pyGet j "message" (Json.obj []) with
    | .error _ => none
    | .ok msg => lineContentAux msg
  | _ => none

/-- A line the loop passes over without raising and without breaking. -/
def passthroughB (l : Line) : Bool :=
  match stepLine l with
  | .next _ false => true
  | _ => false

/-- Whether a line is a parsed dictionary carrying an `error` binding. -/
def hasErrorFieldB : Line → Bool
  | .parsed (.obj fields) => fields.any (fun p => p.1 == "error")
  | _ => false

/-- Whether a parsed dictionary holds a non-dictionary `message` value, the
shape on which `msg.get` raises `AttributeError`. -/
def badMessageShape (fields : List (String × Json)) : Bool :=
  match lookupKey fields "message" with
  | none => false
  | some (.obj _) => false
  | some _ => true

/-- Shape predicate for the lines whose processing raises: any parsed
non-dictionary value, a dictionary with an `error` binding, or a dictionary
whose `message` value is not a dictionary. -/
def lineRaisesB : Line → Bool
  | .parsed (.obj fields) =>
    fields.any (fun p => p.1 == "error") || badMessageShape fields
  | .parsed _ => true
  | _ => false

/-- Shape predicate for the lines that are skipped silently: blank lines,
undecodable lines, and parsed dictionaries with no `error` binding, a
dictionary-or-absent `message` carrying no truthy `content`, and a falsy
`done`. -/
def skipShapeB : Line → Bool
  | .blank => true
  | .invalid _ => true
  | .parsed (.obj fields) =>
    !(fields.any (fun p => p.1 == "error")) && !(badMessageShape fields) &&
    (lineContent (Line.parsed (Json.obj fields))).isNone &&
    !((lookupKey fields "done").getD Json.null).truthy
  | .parsed _ => false

/-- A message of the conversation transcript (`{"role": ..., "content": ...}`). -/
structure Message where
  role : String
  content : String
  deriving Repr, BEq, DecidableEq

/-- The body of the consumption loop: each yielded chunk is appended to `acc`
and then `"".join(acc)` is rendered, which raises `TypeError` inside the
`try` block as soon as a non-string chunk has been appended. -/
def accLoop : List Json → List String → Except PyErr (List String)
  | [], acc => .ok acc
  | c :: rest, acc =>
    match c with
    | .str s => accLoop rest (acc ++ [s])
    | _ => .error .typeError

/-- The assistant reply block of the module: drain `stream_chat` inside
`try`; on any exception show an error and keep the transcript; otherwise (the
`else` branch) append one assistant message holding the stripped
concatenation of the accumulated chunks. -/
def assistantBlock (messages : List Message) (statusOk : Bool)
    (lines : List Line) : List Message :=
  match accLoop (stream_chat statusOk lines).fragments [],
        (stream_chat statusOk lines).outcome with
  | .error _, _ => messages
  | .ok _, .failure _ => messages
  | .ok acc, .success => messages ++ [⟨"assistant", pyStrip (String.join acc)⟩]

/-- The abstracted outcome of the catalog GET: the request itself raised, or
a response arrived with a status and a body that either decodes to a JSON
value or fails `resp.json()`. -/
inductive FetchResult where
  | netError
  | response (ok2xx : Bool) (body : Option Json)
  deriving Repr, BEq

/-- The static fallback list of the source. -/
def defaultModels : List Json :=
  [.str "llama3.1", .str "llama3", .str "qwen2.5", .str "phi4"]

/-- Python iteration over the value of `data.get("models", [])`: the elements
of a list, the characters of a string, the keys of a dictionary; `TypeError`
on anything else. -/
def iterElems : Json → Except PyErr (List Json)
  | .arr xs => .ok xs
  | .str s => .ok (s.toList.map (fun c => Json.str (String.mk [c])))
  | .obj fields => .ok (fields.map (fun p => Json.str p.1))
  | _ => .error .typeError

/-- The comprehension `[m["name"] for m in ...]`, evaluated left to right,
propagating the first exception. -/
def namesOf : List Json → Except PyErr (List Json)
  | [] => .ok []
  | m :: rest =>
    match pyIndexStr m "name" with
    | .error e => .error e
    | .ok n =>
      match namesOf rest with
      | .error e => .error e
      | .ok ns => .ok (n :: ns)

/-- Extraction of the model names from a decoded body:
`[m["name"] for m in data.get("models", [])]`. -/
def extractNames (data : Json) : Except PyErr (List Json) :=
  match pyGet data "models" (Json.arr []) with
  | .error e => .error e
  | .ok ms =>
    match iterElems ms with
    | .error e => .error e
    | .ok elems => namesOf elems

/-- `list_models` from the source: every exception along the way — the
request raising, `raise_for_status`, `resp.json()`, or the comprehension —
is caught by the single `except` and answered with the default list. -/
def list_models (r : FetchResult) : List Json :=
  match r with
  | .netError => defaultModels
  | .response ok2xx body =>
    if ok2xx then
      match body with
      | none => defaultModels
      | some data =>
        match extractNames data with
        | .ok names => names
        | .error _ => defaultModels
    else defaultModels

/-! ### Helper lemmas -/

theorem lookupKey_some_any {fields : List (String × Json)} {k : String} {v : Json}
    (h : lookupKey fields k = some v) : fields.any (fun p => p.1 == k) = true := by
  unfold lookupKey at h
  cases hf : fields.find? (fun p => p.1 == k) with
  | none => rw [hf] at h; cases h
  | some p =>
    have hmem := List.mem_of_find?_eq_some hf
    have hp := List.find?_some hf
    exact List.any_eq_true.mpr ⟨p, hmem, hp⟩

theorem any_true_lookupKey_some {fields : List (String × Json)} {k : String}
    (h : fields.any (fun p => p.1 == k) = true) : ∃ v, lookupKey fields k = some v := by
  obtain ⟨p, hmem, hp⟩ := List.any_eq_true.mp h
  have hsome : (fields.find? (fun p => p.1 == k)).isSome := by
    rw [List.find?_isSome]
    exact ⟨p, hmem, hp⟩
  obtain ⟨q, hq⟩ := Option.isSome_iff_exists.mp hsome
  exact ⟨q.2, by unfold lookupKey; rw [hq]; rfl⟩

/-! ### C8: URL joining and trailing slashes -/

/-- C8: for every base address and path, `api_url base path` equals
`api_url (base ++ "/") path` — the joined URL does not depend on a trailing
slash on the base address. -/
theorem C8_api_url_trailing_slash_irrelevant (base_url path : String) :
    api_url base_url path = api_url (base_url ++ "/") path := by
  unfold api_url pyRstrip
  have h : (base_url ++ "/").toList = base_url.toList ++ ['/'] := by
    simp [String.toList]
  rw [h]
  simp [List.dropWhile]

/-! ### C4 / C7: the model catalog -/

/-- C4 (counterexample): a well-formed 2xx response whose body is a JSON
object with no `models` field makes `list_models` return the empty list, not
the fixed default list the claim promises. -/
theorem C4_counterexample_missing_models_field :
    list_models (.response true (some (Json.obj []))) = [] ∧
    list_models (.response true (some (Json.obj []))) ≠ defaultModels := by
  refine ⟨rfl, ?_⟩
  intro h
  rw [show list_models (.response true (some (Json.obj []))) = [] from rfl] at h
  simp [defaultModels] at h

/-- C4 (amended): every exception-producing failure of the catalog fetch —
network error, non-2xx status, undecodable body, or a body whose shape makes
the extraction raise (non-dictionary body, non-iterable `models` value,
record without a `name` field, ...) — is absorbed and answered with the fixed
default list; but a response object with no `models` field is not a failure:
the comprehension runs over the default `[]` and the empty list is returned. -/
theorem C4_list_models_failures (b : Option Json) (data : Json)
    (fields : List (String × Json)) :
    list_models .netError = defaultModels ∧
    list_models (.response false b) = defaultModels ∧
    list_models (.response true none) = defaultModels ∧
    (∀ e, extractNames data = .error e →
      list_models (.response true (some data)) = defaultModels) ∧
    (lookupKey fields "models" = none →
      list_models (.response true (some (Json.obj fields))) = []) := by
  refine ⟨rfl, rfl, rfl, ?_, ?_⟩
  · intro e he
    simp [list_models, he]
  · intro hm
    simp [list_models, extractNames, pyGet, hm, iterElems, namesOf]

/-- Witness for `C4_list_models_failures`: a non-dictionary body (`5`) is a
failure answered with the defaults, and a body `{}` with no `models` field
yields the empty list. -/
theorem C4_list_models_failures_witness :
    list_models (.response true (some (Json.num 5))) = defaultModels ∧
    list_models (.response true (some (Json.obj []))) = [] := by
  have h := C4_list_models_failures none (Json.num 5) []
  exact ⟨h.2.2.2.1 PyErr.attributeError rfl, h.2.2.2.2 rfl⟩

theorem namesOf_forall2 {records names : List Json}
    (h : List.Forall₂
      (fun r n => ∃ fs, r = Json.obj fs ∧ lookupKey fs "name" = some n)
      records names) :
    namesOf records = .ok names := by
  induction h with
  | nil => rfl
  | cons hrn _ ih =>
    obtain ⟨fs, rfl, hn⟩ := hrn
    simp [namesOf, pyIndexStr, hn, ih]

/-- C7: for every well-formed catalog response — a 2xx status, a JSON object
body whose `models` field is a list of records each exposing a `name` field —
`list_models` returns exactly the list of those `name` values in source
order: nothing added, nothing dropped, no dedup, no sort. -/
theorem C7_list_models_wellformed (dfields : List (String × Json))
    (records names : List Json)
    (hm : lookupKey dfields "models" = some (Json.arr records))
    (hrec : List.Forall₂
      (fun r n => ∃ fs, r = Json.obj fs ∧ lookupKey fs "name" = some n)
      records names) :
    list_models (.response true (some (Json.obj dfields))) = names := by
  simp [list_models, extractNames, pyGet, hm, iterElems, namesOf_forall2 hrec]

/-- Witness for `C7_list_models_wellformed`: a two-record catalog comes back
as its two names in order. -/
theorem C7_list_models_wellformed_witness :
    list_models (.response true (some (Json.obj
      [("models", Json.arr
        [Json.obj [("name", Json.str "a:1")],
         Json.obj [("name", Json.str "b:2")]])]))) =
      [Json.str "a:1", Json.str "b:2"] := by
  exact C7_list_models_wellformed _ _ _ rfl
    (List.Forall₂.cons ⟨_, rfl, rfl⟩ (List.Forall₂.cons ⟨_, rfl, rfl⟩ List.Forall₂.nil))

/-! ### Stream lemmas -/

theorem stepError_raises {j : Json} {c : Option Json} {d : Bool} :
    stepError j ≠ .next c d := by
  unfold stepError
  cases hi : pyIndexStr j "error" with
  | ok v => exact fun h => StepResult.noConfusion h
  | error e => exact fun h => StepResult.noConfusion h

theorem stepDone_next {j chunk : Json} {c : Option Json} {d : Bool}
    (h : stepDone j chunk = .next c d) :
    c = (if chunk.truthy then some chunk else none) := by
  unfold stepDone at h
  cases hd : pyGet j "done" Json.null with
  | error e => rw [hd] at h; exact StepResult.noConfusion h
  | ok dv =>
    rw [hd] at h
    exact (StepResult.noConfusion h (fun hch hdn => hch)).symm

theorem stepContent_next {j msg : Json} {c : Option Json} {d : Bool}
    (h : stepContent j msg = .next c d) : lineContentAux msg = c := by
  unfold stepContent at h
  unfold lineContentAux
  cases hcc : pyGet msg "content" (Json.str "") with
  | error e => rw [hcc] at h; exact StepResult.noConfusion h
  | ok chunk =>
    rw [hcc] at h
    exact (stepDone_next h).symm

theorem lineContent_of_step_next {l : Line} {c : Option Json} {d : Bool}
    (h : stepLine l = .next c d) : lineContent l = c := by
  cases l with
  | blank => cases h; rfl
  | invalid s => cases h; rfl
  | parsed j =>
    simp only [stepLine] at h
    simp only [lineContent]
    cases hc : pyContains j "error" with
    | error e => rw [hc] at h; exact StepResult.noConfusion h
    | ok b =>
      rw [hc] at h
      cases b with
      | true => exact absurd h stepError_raises
      | false =>
        unfold stepMessage at h
        cases hm : pyGet j "message" (Json.obj []) with
        | error e => rw [hm] at h; exact StepResult.noConfusion h
        | ok msg =>
          rw [hm] at h
          exact stepContent_next h

theorem runLines_consumed_leftover (lines : List Line) :
    (runLines lines).consumed ++ (runLines lines).leftover = lines := by
  induction lines with
  | nil => rfl
  | cons l rest ih =>
    unfold runLines
    cases h : stepLine l with
    | raise e => simp
    | next c d =>
      cases d with
      | true => simp
      | false => simpa using ih

theorem runLines_success_fragments (lines : List Line)
    (h : (runLines lines).outcome = .success) :
    (runLines lines).fragments = (runLines lines).consumed.filterMap lineContent := by
  induction lines with
  | nil => rfl
  | cons l rest ih =>
    simp only [runLines] at h ⊢
    cases hs : stepLine l with
    | raise e => rw [hs] at h; exact Outcome.noConfusion h
    | next c d =>
      rw [hs] at h
      cases d with
      | true =>
        show c.toList = List.filterMap lineContent [l]
        rw [List.filterMap_cons, lineContent_of_step_next hs]
        cases c <;> simp
      | false =>
        have hout : (runLines rest).outcome = .success := h
        show c.toList ++ (runLines rest).fragments =
          List.filterMap lineContent (l :: (runLines rest).consumed)
        rw [List.filterMap_cons, lineContent_of_step_next hs, ih hout]
        cases c <;> simp

theorem accLoop_ok_exists {frags : List Json} {acc0 acc : List String}
    (h : accLoop frags acc0 = .ok acc) :
    ∃ ss, frags = ss.map Json.str ∧ acc = acc0 ++ ss := by
  induction frags generalizing acc0 with
  | nil =>
    refine ⟨[], rfl, ?_⟩
    unfold accLoop at h
    cases h
    simp
  | cons c rest ih =>
    cases c with
    | str s =>
      obtain ⟨ss, h1, h2⟩ := ih h
      exact ⟨s :: ss, by simp [h1], by simp [h2]⟩
    | null => cases h
    | bool b => cases h
    | num n => cases h
    | arr xs => cases h
    | obj fs => cases h

theorem passthroughB_step {l : Line} (h : passthroughB l = true) :
    ∃ c, stepLine l = .next c false := by
  unfold passthroughB at h
  cases hs : stepLine l with
  | raise e => rw [hs] at h; cases h
  | next c d =>
    rw [hs] at h
    cases d with
    | true => cases h
    | false => exact ⟨c, rfl⟩

theorem runLines_passthrough_append (pre rest : List Line)
    (h : ∀ l ∈ pre, passthroughB l = true) :
    runLines (pre ++ rest) =
      ⟨pre.filterMap lineContent ++ (runLines rest).fragments,
       pre ++ (runLines rest).consumed,
       (runLines rest).leftover, (runLines rest).outcome⟩ := by
  induction pre with
  | nil => simp
  | cons l pre ih =>
    have hl : passthroughB l = true := h l (by simp)
    have hpre : ∀ x ∈ pre, passthroughB x = true := fun x hx => h x (by simp [hx])
    obtain ⟨c, hs⟩ := passthroughB_step hl
    have hrw := ih hpre
    show runLines (l :: (pre ++ rest)) = _
    simp only [runLines, hs, hrw, List.filterMap_cons, lineContent_of_step_next hs]
    cases c <;> simp

/-! ### C1: yielded fragments -/

/-- C1: whenever `stream_chat` completes successfully, the lines it read are
a prefix of the input stream (in reading order), the yielded fragments are
exactly the non-empty message contents of the lines it read, in that order,
and the accumulated assistant content (the strings collected by the consuming
loop) is exactly the fragment sequence — nothing reordered, duplicated or
lost. -/
theorem C1_stream_fragments_exact (statusOk : Bool) (lines : List Line)
    (h : (stream_chat statusOk lines).outcome = .success) :
    (stream_chat statusOk lines).consumed ++ (stream_chat statusOk lines).leftover = lines ∧
    (stream_chat statusOk lines).fragments =
      (stream_chat statusOk lines).consumed.filterMap lineContent ∧
    ∀ acc, accLoop (stream_chat statusOk lines).fragments [] = .ok acc →
      (stream_chat statusOk lines).fragments = acc.map Json.str := by
  cases statusOk with
  | false => exact absurd h (by simp [stream_chat])
  | true =>
    refine ⟨?_, ?_, ?_⟩
    · simpa [stream_chat] using runLines_consumed_leftover lines
    · simpa [stream_chat] using
        runLines_success_fragments lines (by simpa [stream_chat] using h)
    · intro acc hacc
      obtain ⟨ss, h1, h2⟩ := accLoop_ok_exists hacc
      simp at h2
      simp [h1, h2]

/-- Witness for `C1_stream_fragments_exact`: the spec's end-to-end stream
`{"message":{"content":"Hel"}}`, `{"message":{"content":"lo"}}`,
`{"done":true}` yields exactly `["Hel", "lo"]`. -/
theorem C1_stream_fragments_exact_witness :
    (stream_chat true
      [Line.parsed (Json.obj [("message", Json.obj [("content", Json.str "Hel")])]),
       Line.parsed (Json.obj [("message", Json.obj [("content", Json.str "lo")])]),
       Line.parsed (Json.obj [("done", Json.bool true)])]).fragments =
      [Json.str "Hel", Json.str "lo"] ∧
    (stream_chat true
      [Line.parsed (Json.obj [("message", Json.obj [("content", Json.str "Hel")])]),
       Line.parsed (Json.obj [("message", Json.obj [("content", Json.str "lo")])]),
       Line.parsed (Json.obj [("done", Json.bool true)])]).fragments =
      (stream_chat true
        [Line.parsed (Json.obj [("message", Json.obj [("content", Json.str "Hel")])]),
         Line.parsed (Json.obj [("message", Json.obj [("content", Json.str "lo")])]),
         Line.parsed (Json.obj [("done", Json.bool true)])]).consumed.filterMap
        lineContent := by
  refine ⟨rfl, ?_⟩
  exact (C1_stream_fragments_exact true
    [Line.parsed (Json.obj [("message", Json.obj [("content", Json.str "Hel")])]),
     Line.parsed (Json.obj [("message", Json.obj [("content", Json.str "lo")])]),
     Line.parsed (Json.obj [("done", Json.bool true)])] rfl).2.1

/-! ### C2: a parsed `error` line aborts the stream -/

/-- C2: when the stream reaches a parsed object carrying an `error` field
(all lines before it being passed over without raising or breaking),
`stream_chat` raises a runtime failure carrying exactly the error value,
reads no line beyond it, and the fragments yielded before it are exactly
those of the earlier lines, unaffected. -/
theorem C2_error_field_aborts (pre post : List Line)
    (fields : List (String × Json)) (e : Json)
    (hpre : ∀ l ∈ pre, passthroughB l = true)
    (herr : lookupKey fields "error" = some e) :
    stream_chat true (pre ++ Line.parsed (Json.obj fields) :: post) =
      ⟨pre.filterMap lineContent, pre ++ [Line.parsed (Json.obj fields)], post,
       .failure (.runtime e)⟩ := by
  have hany : fields.any (fun p => p.1 == "error") = true := lookupKey_some_any herr
  have hstep : stepLine (Line.parsed (Json.obj fields)) = .raise (.runtime e) := by
    simp only [stepLine, pyContains, hany, stepError, pyIndexStr, herr]
  have hrw := runLines_passthrough_append pre
    (Line.parsed (Json.obj fields) :: post) hpre
  show runLines (pre ++ Line.parsed (Json.obj fields) :: post) = _
  rw [hrw]
  simp only [runLines, hstep]
  simp

/-- Witness for `C2_error_field_aborts`: one fragment line, then
`{"error": "rate limited"}`, then a trailing line that is never read. -/
theorem C2_error_field_aborts_witness :
    stream_chat true
      [Line.parsed (Json.obj [("message", Json.obj [("content", Json.str "Hel")])]),
       Line.parsed (Json.obj [("error", Json.str "rate limited")]),
       Line.blank] =
      ⟨[Json.str "Hel"],
       [Line.parsed (Json.obj [("message", Json.obj [("content", Json.str "Hel")])]),
        Line.parsed (Json.obj [("error", Json.str "rate limited")])],
       [Line.blank], .failure (.runtime (Json.str "rate limited"))⟩ := by
  have h := C2_error_field_aborts
    [Line.parsed (Json.obj [("message", Json.obj [("content", Json.str "Hel")])])]
    [Line.blank] [("error", Json.str "rate limited")] (Json.str "rate limited")
    (by intro l hl; rw [List.mem_singleton] at hl; rw [hl]; rfl) rfl
  exact h

/-! ### C6: a truthy `done` marker stops the stream -/

theorem stepContent_obj (fields ms : List (String × Json)) :
    stepContent (Json.obj fields) (Json.obj ms) =
      .next (lineContentAux (Json.obj ms))
            (((lookupKey fields "done").getD Json.null).truthy) := rfl

theorem stepLine_obj_benign (fields : List (String × Json))
    (hnoerr : fields.any (fun p => p.1 == "error") = false)
    (hmsg : badMessageShape fields = false) :
    stepLine (Line.parsed (Json.obj fields)) =
      .next (lineContent (Line.parsed (Json.obj fields)))
            (((lookupKey fields "done").getD Json.null).truthy) := by
  have hL : stepLine (Line.parsed (Json.obj fields)) =
      stepContent (Json.obj fields)
        ((lookupKey fields "message").getD (Json.obj [])) := by
    simp only [stepLine, pyContains, hnoerr, stepMessage, pyGet]
  have hC : lineContent (Line.parsed (Json.obj fields)) =
      lineContentAux ((lookupKey fields "message").getD (Json.obj [])) := by
    simp only [lineContent, pyGet]
  rw [hL, hC]
  cases hm : lookupKey fields "message" with
  | none => exact stepContent_obj fields []
  | some v =>
    cases v with
    | obj ms => exact stepContent_obj fields ms
    | null => unfold badMessageShape at hmsg; rw [hm] at hmsg; cases hmsg
    | bool b => unfold badMessageShape at hmsg; rw [hm] at hmsg; cases hmsg
    | num n => unfold badMessageShape at hmsg; rw [hm] at hmsg; cases hmsg
    | str s => unfold badMessageShape at hmsg; rw [hm] at hmsg; cases hmsg
    | arr xs => unfold badMessageShape at hmsg; rw [hm] at hmsg; cases hmsg

/-- C6: once the stream reaches a parsed object carrying a truthy `done`
marker (all lines before it being passed over without raising or breaking),
`stream_chat` stops reading with success even though later lines remain, and
those later lines contribute no fragments: the fragments are exactly those of
the earlier lines plus, possibly, the content carried by the `done` line
itself. -/
theorem C6_done_marker_stops (pre post : List Line)
    (fields : List (String × Json)) (d : Json)
    (hpre : ∀ l ∈ pre, passthroughB l = true)
    (hnoerr : fields.any (fun p => p.1 == "error") = false)
    (hmsg : badMessageShape fields = false)
    (hdone : lookupKey fields "done" = some d)
    (htruthy : d.truthy = true) :
    stream_chat true (pre ++ Line.parsed (Json.obj fields) :: post) =
      ⟨pre.filterMap lineContent ++
         (lineContent (Line.parsed (Json.obj fields))).toList,
       pre ++ [Line.parsed (Json.obj fields)], post, .success⟩ := by
  have hstep := stepLine_obj_benign fields hnoerr hmsg
  rw [hdone] at hstep
  simp only [Option.getD] at hstep
  rw [htruthy] at hstep
  have hrw := runLines_passthrough_append pre
    (Line.parsed (Json.obj fields) :: post) hpre
  show runLines (pre ++ Line.parsed (Json.obj fields) :: post) = _
  rw [hrw]
  simp only [runLines, hstep]

/-- Witness for `C6_done_marker_stops`: `{"done": true}` followed by a
further fragment line; the stream succeeds at the marker and the later line
is left unread and yields nothing. -/
theorem C6_done_marker_stops_witness :
    stream_chat true
      [Line.parsed (Json.obj [("done", Json.bool true)]),
       Line.parsed (Json.obj [("message", Json.obj [("content", Json.str "lo")])])] =
      ⟨[], [Line.parsed (Json.obj [("done", Json.bool true)])],
       [Line.parsed (Json.obj [("message", Json.obj [("content", Json.str "lo")])])],
       .success⟩ := by
  have h := C6_done_marker_stops []
    [Line.parsed (Json.obj [("message", Json.obj [("content", Json.str "lo")])])]
    [("done", Json.bool true)] (Json.bool true)
    (by intro l hl; cases hl) rfl rfl rfl rfl
  exact h

/-! ### C3 / C10: committing the assistant turn -/

/-- C3: if `stream_chat` raises at any point before completing — stream-open
failure or any mid-stream failure — the caller appends no assistant message:
the transcript after the reply block is exactly the transcript before it, so
the partial accumulated text is never persisted. -/
theorem C3_no_commit_on_failure (messages : List Message) (statusOk : Bool)
    (lines : List Line)
    (h : (stream_chat statusOk lines).outcome ≠ .success) :
    assistantBlock messages statusOk lines = messages := by
  unfold assistantBlock
  cases hacc : accLoop (stream_chat statusOk lines).fragments [] with
  | error e => rfl
  | ok acc =>
    cases ho : (stream_chat statusOk lines).outcome with
    | failure e => rfl
    | success => exact absurd ho h

/-- Witness for `C3_no_commit_on_failure`: a stream-open failure (non-2xx
status) leaves a one-user-message transcript untouched. -/
theorem C3_no_commit_on_failure_witness :
    assistantBlock [⟨"user", "hi"⟩] false [Line.blank] = [⟨"user", "hi"⟩] := by
  exact C3_no_commit_on_failure [⟨"user", "hi"⟩] false [Line.blank]
    (by simp [stream_chat])

/-- C10: whenever `stream_chat` completes without raising and the consuming
loop drains it without raising (every yielded fragment a string), the caller
appends exactly one assistant message whose content is the
whitespace-stripped concatenation of the yielded fragments — in particular a
completed stream with zero fragments still appends one assistant message with
empty content. -/
theorem C10_commit_on_success (messages : List Message) (statusOk : Bool)
    (lines : List Line) (acc : List String)
    (hout : (stream_chat statusOk lines).outcome = .success)
    (hacc : accLoop (stream_chat statusOk lines).fragments [] = .ok acc) :
    assistantBlock messages statusOk lines =
      messages ++ [⟨"assistant", pyStrip (String.join acc)⟩] ∧
    (stream_chat statusOk lines).fragments = acc.map Json.str := by
  constructor
  · unfold assistantBlock
    rw [hacc, hout]
  · obtain ⟨ss, h1, h2⟩ := accLoop_ok_exists hacc
    simp at h2
    rw [h1, h2]

/-- Witness for `C10_commit_on_success`: an immediately finished stream (no
lines at all) appends one assistant message with empty content. -/
theorem C10_commit_on_success_witness :
    assistantBlock [⟨"user", "hi"⟩] true [] =
      [⟨"user", "hi"⟩, ⟨"assistant", ""⟩] := by
  have h := C10_commit_on_success [⟨"user", "hi"⟩] true [] [] rfl rfl
  exact h.1

/-! ### C5: which lines fail the stream and which are skipped -/

theorem lineRaisesB_eq_step (l : Line) :
    lineRaisesB l =
      (match stepLine l with
       | .raise _ => true
       | .next _ _ => false) := by
  cases l with
  | blank => rfl
  | invalid s => rfl
  | parsed j =>
    cases j with
    | null => rfl
    | bool b => rfl
    | num n => rfl
    | str s =>
      show true = _
      simp only [stepLine, pyContains]
      cases hb : pySubstr "error" s with
      | true => rfl
      | false => rfl
    | arr xs =>
      show true = _
      simp only [stepLine, pyContains]
      cases hb : xs.any (fun x => x == Json.str "error") with
      | true => rfl
      | false => rfl
    | obj fields =>
      show (fields.any (fun p => p.1 == "error") || badMessageShape fields) = _
      simp only [stepLine, pyContains]
      cases hany : fields.any (fun p => p.1 == "error") with
      | true =>
        obtain ⟨v, hv⟩ := any_true_lookupKey_some hany
        simp only [Bool.true_or, stepError, pyIndexStr, hv]
      | false =>
        simp only [Bool.false_or, stepMessage, pyGet, badMessageShape]
        cases hm : lookupKey fields "message" with
        | none => rfl
        | some v =>
          cases v with
          | obj ms => rfl
          | null => rfl
          | bool b => rfl
          | num n => rfl
          | str s => rfl
          | arr xs => rfl

theorem skipShapeB_step {l : Line} (h : skipShapeB l = true) :
    stepLine l = .next none false := by
  cases l with
  | blank => rfl
  | invalid s => rfl
  | parsed j =>
    cases j with
    | obj fields =>
      simp only [skipShapeB, Bool.and_eq_true, Bool.not_eq_true'] at h
      obtain ⟨⟨⟨hany, hbad⟩, hcont⟩, hdone⟩ := h
      rw [Option.isNone_iff_eq_none] at hcont
      rw [stepLine_obj_benign fields hany hbad, hcont, hdone]
    | null => cases h
    | bool b => cases h
    | num n => cases h
    | str s => cases h
    | arr xs => cases h

theorem runLines_failure_iff (lines : List Line) :
    (runLines lines).outcome ≠ .success ↔
      ∃ l ∈ (runLines lines).consumed, lineRaisesB l = true := by
  induction lines with
  | nil => simp [runLines]
  | cons l rest ih =>
    simp only [runLines]
    cases hs : stepLine l with
    | raise e =>
      refine Iff.intro (fun _ => ⟨l, by simp, ?_⟩) (fun _ => by simp)
      rw [lineRaisesB_eq_step, hs]
    | next c d =>
      have hfalse : lineRaisesB l = false := by rw [lineRaisesB_eq_step, hs]
      cases d with
      | true =>
        show Outcome.success ≠ .success ↔ ∃ x ∈ [l], lineRaisesB x = true
        constructor
        · intro hcon; exact absurd rfl hcon
        · rintro ⟨x, hx, hrx⟩
          rw [List.mem_singleton] at hx
          subst hx
          rw [hfalse] at hrx
          cases hrx
      | false =>
        show (runLines rest).outcome ≠ .success ↔
          ∃ x ∈ l :: (runLines rest).consumed, lineRaisesB x = true
        constructor
        · intro hfail
          obtain ⟨x, hx, hrx⟩ := ih.mp hfail
          exact ⟨x, List.mem_cons_of_mem _ hx, hrx⟩
        · rintro ⟨x, hx, hrx⟩
          rcases List.mem_cons.mp hx with h1 | h2
          · subst h1; rw [hfalse] at hrx; cases hrx
          · exact ih.mpr ⟨x, h2, hrx⟩

/-- C5 (counterexample): the line `5` is valid JSON, carries no `error`
field, and the status is successful — yet `stream_chat` fails on it (the
membership test `"error" in obj` raises `TypeError` on an integer) instead
of skipping it as an unrecognized parse. -/
theorem C5_counterexample_nondict_line :
    (stream_chat true [Line.parsed (Json.num 5)]).outcome =
      .failure (.python .typeError) ∧
    hasErrorFieldB (Line.parsed (Json.num 5)) = false := ⟨rfl, rfl⟩

/-- C5 (amended): `stream_chat` propagates a failure iff the initial status
is unsuccessful or some line it read raises: a parsed object carrying an
`error` field, a parsed line that is not a JSON object, or a parsed object
whose `message` value is present but not an object.  Blank lines,
undecodable lines, and parsed objects with none of `error`, truthy content,
or truthy `done` are skipped silently: no fragment, no failure, no
termination — the run continues exactly as without that line. -/
theorem C5_failure_characterisation :
    (∀ (statusOk : Bool) (lines : List Line),
      (stream_chat statusOk lines).outcome ≠ .success ↔
        (statusOk = false ∨
          ∃ l ∈ (stream_chat statusOk lines).consumed, lineRaisesB l = true)) ∧
    (∀ (l : Line) (rest : List Line), skipShapeB l = true →
      stream_chat true (l :: rest) =
        ⟨(stream_chat true rest).fragments,
         l :: (stream_chat true rest).consumed,
         (stream_chat true rest).leftover,
         (stream_chat true rest).outcome⟩) := by
  constructor
  · intro statusOk lines
    cases statusOk with
    | false => simp [stream_chat]
    | true =>
      have h := runLines_failure_iff lines
      simpa [stream_chat] using h
  · intro l rest hskip
    have hs : stepLine l = .next none false := skipShapeB_step hskip
    show runLines (l :: rest) = _
    simp only [runLines, hs]
    rfl

/-- Witness for `C5_failure_characterisation`: an undecodable keepalive line
is skipped — the run on `["not json", done-line]` is the run on the
done-line with the skipped line prepended to the consumed list, and such a
stream does not fail; and a stream whose read lines include the raising line
`5` fails. -/
theorem C5_failure_characterisation_witness :
    stream_chat true
      [Line.invalid "not json", Line.parsed (Json.obj [("done", Json.bool true)])] =
      ⟨(stream_chat true [Line.parsed (Json.obj [("done", Json.bool true)])]).fragments,
       Line.invalid "not json" ::
         (stream_chat true [Line.parsed (Json.obj [("done", Json.bool true)])]).consumed,
       (stream_chat true [Line.parsed (Json.obj [("done", Json.bool true)])]).leftover,
       (stream_chat true [Line.parsed (Json.obj [("done", Json.bool true)])]).outcome⟩ ∧
    ((stream_chat true [Line.parsed (Json.num 5)]).outcome ≠ .success ↔
      (true = false ∨
        ∃ l ∈ (stream_chat true [Line.parsed (Json.num 5)]).consumed,
          lineRaisesB l = true)) := by
  constructor
  · exact C5_failure_characterisation.2 (Line.invalid "not json")
      [Line.parsed (Json.obj [("done", Json.bool true)])] rfl
  · exact C5_failure_characterisation.1 true [Line.parsed (Json.num 5)]

/-! ### C9: catalog caching -/

/-- Modelled from the spec: the endpoint identity the catalog cache is keyed
on — the full identity, base address plus credential — because the cached
`list_models` result is keyed on both of its arguments.  The caching itself
is performed by the UI framework's data-cache decorator, whose body is not
part of this repository's sources. -/
structure EndpointKey where
  base : String
  credential : String
  deriving Repr, DecidableEq

/-- Modelled from the spec: one cached catalog entry — the fetched list and
the time it was fetched at. -/
structure CacheEntry where
  value : List Json
  fetchedAt : Nat
  deriving Repr

/-- Modelled from the spec: the catalog cache object — entries keyed by
endpoint identity plus a time-to-live window (the source configures 120
time units). -/
structure Catalog where
  ttl : Nat
  entries : List (EndpointKey × CacheEntry)
  deriving Repr

/-- Lookup of the entry stored for exactly the given endpoint identity. -/
def catalogLookup (entries : List (EndpointKey × CacheEntry))
    (k : EndpointKey) : Option CacheEntry :=
  (entries.find? (fun p => decide (p.1 = k))).map (fun p => p.2)

/-- Modelled from the spec: the entry serving a call at time `now`, if any —
an entry stored under exactly this endpoint identity and still inside its
TTL window. -/
def Catalog.fresh (c : Catalog) (now : Nat) (k : EndpointKey) :
    Option CacheEntry :=
  match catalogLookup c.entries k with
  | some e => if now < e.fetchedAt + c.ttl then some e else none
  | none => none

/-- Modelled from the spec: the cached `list_models` access.  A fresh entry
is returned without a network call; otherwise the fetch result `fetched` is
stored under the key and returned, and the returned flag records that a
network call was issued. -/
def Catalog.get (c : Catalog) (now : Nat) (k : EndpointKey)
    (fetched : List Json) : List Json × Catalog × Bool :=
  match c.fresh now k with
  | some e => (e.value, c, false)
  | none => (fetched, ⟨c.ttl, (k, ⟨fetched, now⟩) :: c.entries⟩, true)

/-- Modelled from the spec: the manual cache-clear operation
(`st.cache_data.clear()` empties the whole cache). -/
def Catalog.invalidate (c : Catalog) : Catalog := ⟨c.ttl, []⟩

theorem catalogLookup_insert_self (entries : List (EndpointKey × CacheEntry))
    (k : EndpointKey) (e : CacheEntry) :
    catalogLookup ((k, e) :: entries) k = some e := by
  simp [catalogLookup]

theorem catalog_fresh_insert (ttl : Nat)
    (entries : List (EndpointKey × CacheEntry)) (k : EndpointKey)
    (e : CacheEntry) (now : Nat) :
    Catalog.fresh ⟨ttl, (k, e) :: entries⟩ now k =
      (if now < e.fetchedAt + ttl then some e else none) := by
  unfold Catalog.fresh
  rw [show (⟨ttl, (k, e) :: entries⟩ : Catalog).entries =
    (k, e) :: entries from rfl]
  rw [catalogLookup_insert_self]

theorem catalog_fresh_spec {c : Catalog} {t : Nat} {k : EndpointKey}
    {e : CacheEntry} (h : Catalog.fresh c t k = some e) :
    catalogLookup c.entries k = some e ∧ t < e.fetchedAt + c.ttl := by
  unfold Catalog.fresh at h
  cases hl : catalogLookup c.entries k with
  | none =>
    try rw [hl] at h
    exact Option.noConfusion h
  | some e2 =>
    try rw [hl] at h
    try dsimp only at h
    by_cases hf : t < e2.fetchedAt + c.ttl
    · rw [if_pos hf] at h
      have he : e2 = e := Option.some.inj h
      subst he
      exact ⟨rfl, hf⟩
    · rw [if_neg hf] at h
      exact Option.noConfusion h

theorem catalog_get_miss_cache {c : Catalog} {now : Nat} {k : EndpointKey}
    {fetched : List Json} (h : (Catalog.get c now k fetched).2.2 = true) :
    (Catalog.get c now k fetched).2.1 =
      ⟨c.ttl, (k, ⟨fetched, now⟩) :: c.entries⟩ := by
  unfold Catalog.get at h ⊢
  cases hm : Catalog.fresh c now k with
  | none =>
    try rw [hm]
    rfl
  | some e =>
    try rw [hm] at h
    exact Bool.noConfusion h

/-- C9: catalog caching over the spec-modelled cache.  (a) After a call that
issued a network call, a second call with the same endpoint identity inside
the TTL window returns the first call's fetched list without a new network
call — two calls, exactly one fetch.  (b) A second call at or past the end
of the window issues a new network call.  (c) A call after an explicit cache
clear issues a network call regardless of the window.  (d) A call that
issues no network call serves a stored entry of exactly its own endpoint
identity, still fresh, and returns that entry's value — distinct endpoint
identities never share a cached result. -/
theorem C9_catalog_caching :
    (∀ (c : Catalog) (t1 t2 : Nat) (k : EndpointKey) (f1 f2 : List Json),
      (Catalog.get c t1 k f1).2.2 = true → t2 < t1 + c.ttl →
      Catalog.get (Catalog.get c t1 k f1).2.1 t2 k f2 =
        (f1, (Catalog.get c t1 k f1).2.1, false)) ∧
    (∀ (c : Catalog) (t1 t2 : Nat) (k : EndpointKey) (f1 f2 : List Json),
      (Catalog.get c t1 k f1).2.2 = true → t1 + c.ttl ≤ t2 →
      (Catalog.get (Catalog.get c t1 k f1).2.1 t2 k f2).2.2 = true) ∧
    (∀ (c : Catalog) (t : Nat) (k : EndpointKey) (f : List Json),
      (Catalog.get (Catalog.invalidate c) t k f).2.2 = true) ∧
    (∀ (c : Catalog) (t : Nat) (k : EndpointKey) (f : List Json),
      (Catalog.get c t k f).2.2 = false →
      ∃ e, catalogLookup c.entries k = some e ∧ t < e.fetchedAt + c.ttl ∧
        (Catalog.get c t k f).1 = e.value) := by
  refine ⟨?_, ?_, ?_, ?_⟩
  · intro c t1 t2 k f1 f2 hcall hfresh
    rw [catalog_get_miss_cache hcall]
    unfold Catalog.get
    rw [catalog_fresh_insert]
    dsimp only
    rw [if_pos hfresh]
  · intro c t1 t2 k f1 f2 hcall hstale
    rw [catalog_get_miss_cache hcall]
    unfold Catalog.get
    rw [catalog_fresh_insert]
    dsimp only
    rw [if_neg (show ¬ (t2 < t1 + c.ttl) from by omega)]
  · intro c t k f
    unfold Catalog.get
    rw [show Catalog.fresh (Catalog.invalidate c) t k = none from rfl]
  · intro c t k f h
    unfold Catalog.get at h ⊢
    cases hm : Catalog.fresh c t k with
    | none =>
      try rw [hm] at h
      exact Bool.noConfusion h
    | some e =>
      obtain ⟨h1, h2⟩ := catalog_fresh_spec hm
      exact ⟨e, h1, h2, rfl⟩

/-- Witness for `C9_catalog_caching`: starting from an empty cache with the
source's 120-unit window, a fetch at time 0 followed by a call at time 50
returns the fetched list without a new network call, and a call at time 200
issues one. -/
theorem C9_catalog_caching_witness :
    Catalog.get
        (Catalog.get ⟨120, []⟩ 0 ⟨"https://ollama.com", ""⟩
          [Json.str "llama3.1"]).2.1
        50 ⟨"https://ollama.com", ""⟩ [Json.str "other"] =
      ([Json.str "llama3.1"],
       (Catalog.get ⟨120, []⟩ 0 ⟨"https://ollama.com", ""⟩
          [Json.str "llama3.1"]).2.1, false) ∧
    (Catalog.get
        (Catalog.get ⟨120, []⟩ 0 ⟨"https://ollama.com", ""⟩
          [Json.str "llama3.1"]).2.1
        200 ⟨"https://ollama.com", ""⟩ [Json.str "other"]).2.2 = true := by
  constructor
  · exact C9_catalog_caching.1 ⟨120, []⟩ 0 50 ⟨"https://ollama.com", ""⟩
      [Json.str "llama3.1"] [Json.str "other"] rfl (by decide)
  · exact C9_catalog_caching.2.1 ⟨120, []⟩ 0 200 ⟨"https://ollama.com", ""⟩
      [Json.str "llama3.1"] [Json.str "other"] rfl (by decide)
